import Mathlib

/-!
Shallow embedding of the WAPLNS filter (warped all-pole lattice noise
shaper) from `waplns.hpp` / `waplns.cpp`.

Modelling choices:
* machine floating point (`float` / `double`) is modelled by exact
  rationals `ℚ` (the claims under study are structural / algebraic);
* C `int` indices and the stored order are modelled by `Int`;
* the fixed arrays `k_[32]` and `t_[32]` are modelled by total functions
  `Int → ℚ`, so that the index arithmetic of every loop is expressible
  and out-of-range indices can be talked about;
* each C++ `for` loop becomes a structurally recursive helper driven by
  a `Nat` fuel equal to the loop's trip count, carrying the running
  `Int` index, exactly mirroring the source iteration order;
* the default constructor leaves `k_` and `t_` uninitialized, so the
  initial state takes two arbitrary "garbage" functions as parameters.
-/

/-- Constant `const int max_wapl_filt_order = 32;` from `waplns.hpp`. -/
def max_wapl_filt_order : Int := 32

/-- The data members of class `waplns` (`waplns.hpp`):
`order_`, `lambda_`, `k_[max_wapl_filt_order]`, derived `s1_`, `s2_`,
state `t_[max_wapl_filt_order]` and `next_u_`. -/
@[ext]
structure Waplns where
  order_ : Int
  lambda_ : ℚ
  k_ : Int → ℚ
  s1_ : ℚ
  s2_ : ℚ
  t_ : Int → ℚ
  next_u_ : ℚ

/-- The default constructor
`waplns() : order_(0), lambda_(0), s1_(1), s2_(1), next_u_(0) {}`.
`k_` and `t_` are left uninitialized, hence the garbage parameters. -/
def waplns_init (kGarbage tGarbage : Int → ℚ) : Waplns :=
  { order_ := 0, lambda_ := 0, k_ := kGarbage, s1_ := 1, s2_ := 1,
    t_ := tGarbage, next_u_ := 0 }

/-- Function `lattice_step(a,b,k)` from `waplns.cpp`:
`ak = a*k; a -= b*k; b -= ak;` returning the new `(a, b)`. -/
def lattice_step (a b k : ℚ) : ℚ × ℚ :=
  let ak := a * k
  (a - b * k, b - ak)

/-- Function `apply_D_alter_t(io,t,lambda)` from `waplns.cpp`:
`next_t = io + lambda*t; io = t - lambda*next_t; t = next_t;`
returning the new `(io, t)`. -/
def apply_D_alter_t (io t lambda : ℚ) : ℚ × ℚ :=
  let next_t := io + lambda * t
  (t - lambda * next_t, next_t)

/-- Function `apply_D_keep_t(io,t,lambda)` from `waplns.cpp`:
`next_t = io + lambda*t; io = t - lambda*next_t;`
returning the new `io` (the delay `t` is not written). -/
def apply_D_keep_t (io t lambda : ℚ) : ℚ :=
  let next_t := io + lambda * t
  t - lambda * next_t

/-- A loop `for (i = lo; i < lo+len; ++i) arr[i] = 0;` on an array
modelled as a function. -/
def zeroRange (t : Int → ℚ) (lo : Int) : Nat → (Int → ℚ)
  | 0 => t
  | n + 1 => zeroRange (Function.update t lo 0) (lo + 1) n

/-- A loop `for (i = lo; i < lo+len; ++i) dst[i] = src[i];` on arrays
modelled as functions. -/
def copyRange (dst src : Int → ℚ) (lo : Int) : Nat → (Int → ℚ)
  | 0 => dst
  | n + 1 => copyRange (Function.update dst lo (src lo)) src (lo + 1) n

/-- The loop body of `waplns::precompute_derived_params`:
`for (i) { b *= negative_lam; lattice_step(a,b,k_[i]); }`
iterated `fuel` times starting at index `i`, on accumulator `(a, b)`. -/
def precompGo (k : Int → ℚ) (negative_lam : ℚ) : Int → Nat → ℚ × ℚ → ℚ × ℚ
  | _, 0, ab => ab
  | i, n + 1, ab =>
    let b := ab.2 * negative_lam
    precompGo k negative_lam (i + 1) n (lattice_step ab.1 b (k i))

/-- Member `waplns::precompute_derived_params()` from `waplns.cpp`:
`a = 1; b = 1;` loop over the stages, then `s1_ = 1; s2_ = 1/a;`. -/
def Waplns.precompute_derived_params (s : Waplns) : Waplns :=
  let a := (precompGo s.k_ (-s.lambda_) 0 s.order_.toNat (1, 1)).1
  { s with s1_ := 1, s2_ := 1 / a }

/-- The feedback-precomputation loop at the end of `waplns::set_params`:
`for (i) { k = k_[i]; apply_D_keep_t(nub,t_[i],lam); lattice_step(nua,nub,k); }`
on accumulator `(nua, nub)`. -/
def fbGo (lam : ℚ) (k t : Int → ℚ) : Int → Nat → ℚ × ℚ → ℚ × ℚ
  | _, 0, nuab => nuab
  | i, n + 1, nuab =>
    let nub := apply_D_keep_t nuab.2 (t i) lam
    fbGo lam k t (i + 1) n (lattice_step nuab.1 nub (k i))

/-- Member `waplns::set_params(lam, ord, newk)` from `waplns.cpp`:
`neword = min(ord, max_wapl_filt_order)`; copy `newk[0..neword)` into
`k_`; zero `t_[i]` for `i` in `[order_, neword)`; store `lam` and
`neword`; recompute the derived params; then precompute `next_u_` via
the `apply_D_keep_t` / `lattice_step` feedback pass. -/
def Waplns.set_params (s : Waplns) (lam : ℚ) (ord : Int) (newk : Int → ℚ) : Waplns :=
  let neword := min ord max_wapl_filt_order
  let s1 : Waplns :=
    { s with
      k_ := copyRange s.k_ newk 0 neword.toNat
      t_ := zeroRange s.t_ s.order_ (neword - s.order_).toNat
      lambda_ := lam
      order_ := neword }
  let s2 := s1.precompute_derived_params
  let nua := (fbGo lam s2.k_ s2.t_ 0 s2.order_.toNat (0, 0)).1
  { s2 with next_u_ := nua * s2.s2_ }

/-- The generic-iterator overload `waplns::set_params<Iter>` from
`waplns.hpp`: clamps `ord` to `max_wapl_filt_order`, reads that many
elements sequentially from the iterator (modelled as the function `it`
from read position to value) into a stack array `temp` (uninitialized
tail modelled by the garbage function `temp0`), then delegates to the
pointer overload. -/
def Waplns.set_params_iter (s : Waplns) (lam : ℚ) (ord : Int) (it : Int → ℚ)
    (temp0 : Int → ℚ) : Waplns :=
  let ord2 := min ord max_wapl_filt_order
  let temp := copyRange temp0 it 0 ord2.toNat
  s.set_params lam ord2 temp

/-- Accumulator record for the per-stage loop of `waplns::x_was`:
the two live accumulators `a`, `b`, the look-ahead accumulators
`nua`, `nub`, and the delay array `t`. -/
structure XwAcc where
  a : ℚ
  b : ℚ
  nua : ℚ
  nub : ℚ
  t : Int → ℚ

/-- The per-stage loop of `waplns::x_was` from `waplns.cpp`:
`k = k_[i]; apply_D_alter_t(b,t_[i],lam); apply_D_keep_t(nub,t_[i],lam);
lattice_step(a,b,k); lattice_step(nua,nub,k);`
Note that `apply_D_keep_t` reads `t_[i]` after `apply_D_alter_t` has
written it. -/
def xwGo (lam : ℚ) (kf : Int → ℚ) : Int → Nat → XwAcc → XwAcc
  | _, 0, acc => acc
  | i, n + 1, acc =>
    let k := kf i
    let bt := apply_D_alter_t acc.b (acc.t i) lam
    let t2 := Function.update acc.t i bt.2
    let nub := apply_D_keep_t acc.nub (t2 i) lam
    let ab := lattice_step acc.a bt.1 k
    let nuab := lattice_step acc.nua nub k
    xwGo lam kf (i + 1) n ⟨ab.1, ab.2, nuab.1, nuab.2, t2⟩

/-- Member `waplns::x_was(x)` from `waplns.cpp`:
`y = x - next_u_; a = y * s1_; b = a; nua = nub = 0;` stage loop;
`next_u_ = nua * s2_;`. -/
def Waplns.x_was (s : Waplns) (x : ℚ) : Waplns :=
  let y := x - s.next_u_
  let a := y * s.s1_
  let acc := xwGo s.lambda_ s.k_ 0 s.order_.toNat ⟨a, a, 0, 0, s.t_⟩
  { s with t_ := acc.t, next_u_ := acc.nua * s.s2_ }

/-- Member `waplns::reset_state()` from `waplns.cpp`:
zeroes `t_[0..order_)` and sets `next_u_ = 0`. -/
def Waplns.reset_state (s : Waplns) : Waplns :=
  { s with t_ := zeroRange s.t_ 0 s.order_.toNat, next_u_ := 0 }

/-- Accessor `float waplns::u() const`, returning `next_u_`. -/
def Waplns.u (s : Waplns) : ℚ := s.next_u_

/-- Accessor `int waplns::order() const`, returning `order_`. -/
def Waplns.order (s : Waplns) : Int := s.order_

/-- Accessor `float waplns::lambda() const`, returning `lambda_`. -/
def Waplns.lambda (s : Waplns) : ℚ := s.lambda_

/-- Accessor `float waplns::k(int idx) const`, returning `k_[idx]` (the assert is
a debug check, not part of the value semantics). -/
def Waplns.k (s : Waplns) (idx : Int) : ℚ := s.k_ idx

/-- Accessor `float waplns::warp_gain() const`, returning `1.0 / s1_ / s2_`. -/
def Waplns.warp_gain (s : Waplns) : ℚ := 1 / s.s1_ / s.s2_

/-- Feeding a list of samples through `x_was`, in order. -/
def feedAll (xs : List ℚ) (s : Waplns) : Waplns :=
  xs.foldl (fun s x => s.x_was x) s

/-- Spec-side transcription (spec §4.2 wording, used by claims C1 and
C3): "initialize `a = 1`, `b = 1`; for each stage `i`: multiply `b` by
`-lambda`, then `ak = a*k[i]; a = a - b*k[i]; b = b - ak`".  Written
independently of `precompGo` for the refinement comparison. -/
def specAccumGo (lambda : ℚ) (k : Int → ℚ) : Int → Nat → ℚ → ℚ → ℚ × ℚ
  | _, 0, a, b => (a, b)
  | i, n + 1, a, b =>
    let b1 := b * (-lambda)
    let ak := a * k i
    let a2 := a - b1 * k i
    let b2 := b1 - ak
    specAccumGo lambda k (i + 1) n a2 b2

/-- The spec's steady-state accumulator `a` after running all stages. -/
def specAccum (lambda : ℚ) (k : Int → ℚ) (order : Nat) : ℚ :=
  (specAccumGo lambda k 0 order 1 1).1

/-- Spec-side transcription of claim C2's per-stage step, written from
the claim's wording: "`next_t = b + lambda*t[i]; b = t[i] - lambda*next_t;
t[i] = next_t` (each `t[i]` written exactly once), then the same
all-pass transfer function applied to `nub` against the stage delay
without mutating it a second time, then the lattice butterfly with
`k[i]` on `(a,b)` and independently on `(nua,nub)`". -/
def xwSpecGo (lambda : ℚ) (k : Int → ℚ) : Int → Nat → XwAcc → XwAcc
  | _, 0, acc => acc
  | i, n + 1, acc =>
    let next_t := acc.b + lambda * acc.t i
    let b1 := acc.t i - lambda * next_t
    let t1 := Function.update acc.t i next_t
    let nu_next := acc.nub + lambda * t1 i
    let nub1 := t1 i - lambda * nu_next
    let a2 := acc.a - b1 * k i
    let b2 := b1 - acc.a * k i
    let nua2 := acc.nua - nub1 * k i
    let nub2 := nub1 - acc.nua * k i
    xwSpecGo lambda k (i + 1) n ⟨a2, b2, nua2, nub2, t1⟩

/-- Spec-side transcription of claim C2's whole `x_was` contract:
`y = x - pendingFeedback`, `a = b = y * scaleIn`, `nua = nub = 0`,
the per-stage loop, then `pendingFeedback = nua * scaleOut`. -/
def x_was_spec (s : Waplns) (x : ℚ) : Waplns :=
  let y := x - s.next_u_
  let a0 := y * s.s1_
  let acc := xwSpecGo s.lambda_ s.k_ 0 s.order_.toNat ⟨a0, a0, 0, 0, s.t_⟩
  { s with t_ := acc.t, next_u_ := acc.nua * s.s2_ }

/-- One public mutating call of the interface, for reasoning about call
histories. -/
inductive FilterCall where
  | setp (lam : ℚ) (ord : Int) (newk : Int → ℚ)
  | xw (x : ℚ)
  | rst

/-- Semantics of one call. -/
def runCall (c : FilterCall) (s : Waplns) : Waplns :=
  match c with
  | .setp lam ord newk => s.set_params lam ord newk
  | .xw x => s.x_was x
  | .rst => s.reset_state

/-- The requested order of a call (0 for the calls that take none). -/
def reqOrder (c : FilterCall) : Int :=
  match c with
  | .setp _ ord _ => ord
  | _ => 0

/-- The stored order after one call, as a function of the stored order
before it. -/
def nextOrder (c : FilterCall) (o : Int) : Int :=
  match c with
  | .setp _ ord _ => min ord max_wapl_filt_order
  | _ => o

/-- The list `[lo, lo+1, ..., lo+len-1]` - the indices visited by a C loop
`for (i = lo; i < lo+len; ++i)`. -/
def intRange (lo : Int) (len : Nat) : List Int :=
  (List.range len).map (fun j : Nat => lo + Int.ofNat j)

/-- The `k_` / `t_` indices accessed by one call when the stored order
is `o`, read off the loops of `waplns.cpp`:
`set_params` writes `k_[0..neword)`, writes `t_[o..neword)`, has
`precompute_derived_params` read `k_[0..neword)`, and its feedback pass
read `k_[i]` and `t_[i]` for `i` in `[0..neword)`; `x_was` and
`reset_state` touch indices `[0..o)`. -/
def callAccess (c : FilterCall) (o : Int) : List Int :=
  match c with
  | .setp _ ord _ =>
    let neword := min ord max_wapl_filt_order
    intRange 0 neword.toNat ++ intRange o (neword - o).toNat ++
      intRange 0 neword.toNat ++ intRange 0 neword.toNat
  | .xw _ => intRange 0 o.toNat
  | .rst => intRange 0 o.toNat

/-- All indices accessed over a call history, starting from stored
order `o`. -/
def accesses : List FilterCall → Int → List Int
  | [], _ => []
  | c :: cs, o => callAccess c o ++ accesses cs (nextOrder c o)

/-- A concrete all-zero array, used to instantiate garbage / coefficient
functions in concrete evaluations. -/
def exZero : Int → ℚ := fun _ => 0

/-- A concrete coefficient array with pairwise distinct entries. -/
def exK : Int → ℚ := fun i => (i : ℚ) + 1

/-- A concrete freshly constructed filter. -/
def exS : Waplns := waplns_init exZero exZero

/-- A concrete configured filter: `set_params(1/2, 2, exK)` on a fresh
filter, then one `x_was(1)` call so that the delay memory is nonzero. -/
def exS2 : Waplns := (exS.set_params (1/2) 2 exK).x_was 1

/-- A concrete call history used for concrete evaluations. -/
def exCalls : List FilterCall :=
  [FilterCall.setp (1/2) 2 exK, FilterCall.xw 1, FilterCall.rst]

/-! ### Basic lemmas about the loop helpers -/

theorem zeroRange_eq_of_out (t : Int → ℚ) (lo : Int) (n : Nat) (i : Int)
    (h : i < lo ∨ lo + n ≤ i) : zeroRange t lo n i = t i := by
  induction n generalizing t lo with
  | zero => rfl
  | succ n ih =>
    rw [zeroRange, ih]
    · exact Function.update_noteq (by omega) _ _
    · omega

theorem zeroRange_eq_zero (t : Int → ℚ) (lo : Int) (n : Nat) (i : Int)
    (h1 : lo ≤ i) (h2 : i < lo + n) : zeroRange t lo n i = 0 := by
  induction n generalizing t lo with
  | zero => omega
  | succ n ih =>
    rw [zeroRange]
    by_cases hi : lo = i
    · subst hi
      rw [zeroRange_eq_of_out _ _ _ _ (Or.inl (by omega))]
      simp
    · exact ih _ _ (by omega) (by omega)

theorem copyRange_eq_of_out (dst src : Int → ℚ) (lo : Int) (n : Nat) (i : Int)
    (h : i < lo ∨ lo + n ≤ i) : copyRange dst src lo n i = dst i := by
  induction n generalizing dst lo with
  | zero => rfl
  | succ n ih =>
    rw [copyRange, ih]
    · exact Function.update_noteq (by omega) _ _
    · omega

theorem copyRange_eq_src (dst src : Int → ℚ) (lo : Int) (n : Nat) (i : Int)
    (h1 : lo ≤ i) (h2 : i < lo + n) : copyRange dst src lo n i = src i := by
  induction n generalizing dst lo with
  | zero => omega
  | succ n ih =>
    rw [copyRange]
    by_cases hi : lo = i
    · subst hi
      rw [copyRange_eq_of_out _ _ _ _ _ (Or.inl (by omega))]
      simp
    · exact ih _ _ (by omega) (by omega)

theorem copyRange_congr (dst src src2 : Int → ℚ) (lo : Int) (n : Nat)
    (h : ∀ j : Int, lo ≤ j → j < lo + n → src j = src2 j) :
    copyRange dst src lo n = copyRange dst src2 lo n := by
  induction n generalizing dst lo with
  | zero => rfl
  | succ n ih =>
    rw [copyRange, copyRange, h lo (by omega) (by omega)]
    exact ih _ _ (fun j hj1 hj2 => h j (by omega) (by omega))

/-! ### Projections of the operations (all definitional) -/

theorem set_params_order (s : Waplns) (lam : ℚ) (ord : Int) (newk : Int → ℚ) :
    (s.set_params lam ord newk).order_ = min ord max_wapl_filt_order := rfl

theorem set_params_lambda (s : Waplns) (lam : ℚ) (ord : Int) (newk : Int → ℚ) :
    (s.set_params lam ord newk).lambda_ = lam := rfl

theorem set_params_k (s : Waplns) (lam : ℚ) (ord : Int) (newk : Int → ℚ) :
    (s.set_params lam ord newk).k_ =
      copyRange s.k_ newk 0 (min ord max_wapl_filt_order).toNat := rfl

theorem set_params_t (s : Waplns) (lam : ℚ) (ord : Int) (newk : Int → ℚ) :
    (s.set_params lam ord newk).t_ =
      zeroRange s.t_ s.order_ (min ord max_wapl_filt_order - s.order_).toNat := rfl

theorem set_params_s1 (s : Waplns) (lam : ℚ) (ord : Int) (newk : Int → ℚ) :
    (s.set_params lam ord newk).s1_ = 1 := rfl

theorem set_params_s2 (s : Waplns) (lam : ℚ) (ord : Int) (newk : Int → ℚ) :
    (s.set_params lam ord newk).s2_ =
      1 / (precompGo (s.set_params lam ord newk).k_ (-lam) 0
            (min ord max_wapl_filt_order).toNat (1, 1)).1 := rfl

theorem set_params_next_u (s : Waplns) (lam : ℚ) (ord : Int) (newk : Int → ℚ) :
    (s.set_params lam ord newk).next_u_ =
      (fbGo lam (s.set_params lam ord newk).k_ (s.set_params lam ord newk).t_ 0
        (min ord max_wapl_filt_order).toNat (0, 0)).1 *
      (s.set_params lam ord newk).s2_ := rfl

theorem x_was_order (s : Waplns) (x : ℚ) : (s.x_was x).order_ = s.order_ := rfl

theorem x_was_next_u (s : Waplns) (x : ℚ) :
    (s.x_was x).next_u_ =
      (xwGo s.lambda_ s.k_ 0 s.order_.toNat
        ⟨(x - s.next_u_) * s.s1_, (x - s.next_u_) * s.s1_, 0, 0, s.t_⟩).nua * s.s2_ := rfl

theorem reset_state_t (s : Waplns) :
    s.reset_state.t_ = zeroRange s.t_ 0 s.order_.toNat := rfl

/-! ### Loop-level lemmas -/

/-- The steady-state pass of `precompute_derived_params` coincides with
the recurrence as worded in spec §4.2. -/
theorem precompGo_eq_specAccumGo (k : Int → ℚ) (lam : ℚ) (n : Nat) :
    ∀ (i : Int) (a b : ℚ),
      precompGo k (-lam) i n (a, b) = specAccumGo lam k i n a b := by
  induction n with
  | zero => intro i a b; rfl
  | succ n ih =>
    intro i a b
    rw [precompGo, specAccumGo]
    simpa [lattice_step, mul_comm] using ih (i + 1) _ _

/-- The feedback pass over all-zero delay memory produces `(0, 0)`. -/
theorem fbGo_zero (lam : ℚ) (k t : Int → ℚ) (n : Nat) :
    ∀ i : Int, (∀ j : Int, i ≤ j → j < i + n → t j = 0) →
      fbGo lam k t i n (0, 0) = (0, 0) := by
  induction n with
  | zero => intro i _; rfl
  | succ n ih =>
    intro i h
    rw [fbGo]
    have ht : t i = 0 := h i (by omega) (by omega)
    have hstep : lattice_step 0 (apply_D_keep_t 0 (t i) lam) (k i) = (0, 0) := by
      simp [apply_D_keep_t, lattice_step, ht]
    rw [hstep]
    exact ih (i + 1) (fun j hj1 hj2 => h j (by omega) (by omega))

/-- The stage loop of `x_was` never touches delay entries outside the
index window it iterates over. -/
theorem xwGo_t_frame (lam : ℚ) (kf : Int → ℚ) (n : Nat) :
    ∀ (i : Int) (acc : XwAcc) (j : Int), j < i ∨ i + n ≤ j →
      (xwGo lam kf i n acc).t j = acc.t j := by
  induction n with
  | zero => intro i acc j _; rfl
  | succ n ih =>
    intro i acc j hj
    rw [xwGo, ih _ _ _ (by omega)]
    exact Function.update_noteq (by omega) _ _

/-- The stage loop of `x_was` coincides with the per-stage step as
worded in claim C2. -/
theorem xwGo_eq_xwSpecGo (lam : ℚ) (kf : Int → ℚ) (n : Nat) :
    ∀ (i : Int) (acc : XwAcc), xwGo lam kf i n acc = xwSpecGo lam kf i n acc := by
  induction n with
  | zero => intro i acc; rfl
  | succ n ih =>
    intro i acc
    rw [xwGo, xwSpecGo, ih]
    congr 1

/-! ### Claim theorems -/

/-- C1: after every `set_params` call (the only caller of
`precompute_derived_params`), the derived scales satisfy `s1 = 1` and
`s2 = 1/a`, where `a` is the accumulator of the §4.2 recurrence
(`a = 1, b = 1`; per stage `b *= -lambda`, then the lattice butterfly
`ak = a*k[i]; a = a - b*k[i]; b = b - ak`) run over the stored
parameters; consequently `s1 * s2 = 1/a`. -/
theorem C1_derived_scales (s : Waplns) (lam : ℚ) (ord : Int) (newk : Int → ℚ) :
    (s.set_params lam ord newk).s1_ = 1 ∧
    (s.set_params lam ord newk).s2_ =
      1 / specAccum (s.set_params lam ord newk).lambda_
            (s.set_params lam ord newk).k_ (s.set_params lam ord newk).order_.toNat ∧
    (s.set_params lam ord newk).s1_ * (s.set_params lam ord newk).s2_ =
      1 / specAccum (s.set_params lam ord newk).lambda_
            (s.set_params lam ord newk).k_ (s.set_params lam ord newk).order_.toNat := by
  have hs2 : (s.set_params lam ord newk).s2_ =
      1 / specAccum (s.set_params lam ord newk).lambda_
            (s.set_params lam ord newk).k_ (s.set_params lam ord newk).order_.toNat := by
    rw [set_params_s2, set_params_lambda, set_params_order, specAccum,
      precompGo_eq_specAccumGo]
  exact ⟨rfl, hs2, by rw [set_params_s1, one_mul]; exact hs2⟩

/-- C2: `x_was(x)` computes `y = x - pendingFeedback`, runs the
all-pass / butterfly stage loop exactly as worded in the claim (each
`t[i]` written exactly once, the `nub` all-pass applied against the
stage delay without a second mutation), and stores
`pendingFeedback = nua * scaleOut`, which the next `u()` call returns;
delay entries outside `[0, order)` are untouched. -/
theorem C2_x_was_contract (s : Waplns) (x : ℚ) :
    s.x_was x = x_was_spec s x ∧
    (∀ j : Int, j < 0 ∨ s.order_ ≤ j → (s.x_was x).t_ j = s.t_ j) ∧
    (s.x_was x).u = (x_was_spec s x).next_u_ := by
  have heq : s.x_was x = x_was_spec s x := by
    rw [Waplns.x_was, x_was_spec, xwGo_eq_xwSpecGo]
  refine ⟨heq, ?_, by rw [Waplns.u, heq]⟩
  intro j hj
  exact xwGo_t_frame s.lambda_ s.k_ s.order_.toNat 0 _ j (by omega)

/-- C2 witness: the frame part of `C2_x_was_contract` applied to the
concrete filter `exS2` at the out-of-range index `2`. -/
theorem C2_x_was_contract_witness :
    ((2:Int) < 0 ∨ exS2.order_ ≤ 2) ∧ (exS2.x_was 1).t_ 2 = exS2.t_ 2 := by
  refine ⟨Or.inr ?_, (C2_x_was_contract exS2 1).2.1 2 (Or.inr ?_)⟩ <;>
    norm_num [exS2, exS, exK, exZero, waplns_init, Waplns.set_params, Waplns.x_was,
      Waplns.precompute_derived_params, max_wapl_filt_order, min_def]

/-- C3 counterexample: the claim asserts `scaleIn * scaleOut = a` (the
§4.2 accumulator); on the concrete call `set_params(1/2, 1, exK)` the
code yields `s1 * s2 = 2/3` while `a = 3/2`. -/
theorem C3_counterexample :
    ¬ ((exS.set_params (1/2) 1 exK).s1_ * (exS.set_params (1/2) 1 exK).s2_ =
        specAccum (exS.set_params (1/2) 1 exK).lambda_
          (exS.set_params (1/2) 1 exK).k_
          (exS.set_params (1/2) 1 exK).order_.toNat) := by
  norm_num [exS, exK, exZero, waplns_init, Waplns.set_params,
    Waplns.precompute_derived_params, specAccum, specAccumGo, precompGo, fbGo,
    copyRange, zeroRange, lattice_step, apply_D_alter_t, apply_D_keep_t,
    max_wapl_filt_order, min_def, Function.update]

/-- C3 (amended): `warp_gain()` always equals `1 / (scaleIn * scaleOut)`,
and after any `set_params` call `scaleIn * scaleOut` equals the
*reciprocal* `1/a` of the analytically-recomputed §4.2 steady-state
accumulator `a` (equivalently, `warp_gain()` itself equals `a`). -/
theorem C3_warp_gain (s : Waplns) (lam : ℚ) (ord : Int) (newk : Int → ℚ) :
    s.warp_gain = 1 / (s.s1_ * s.s2_) ∧
    (s.set_params lam ord newk).s1_ * (s.set_params lam ord newk).s2_ =
      1 / specAccum (s.set_params lam ord newk).lambda_
            (s.set_params lam ord newk).k_ (s.set_params lam ord newk).order_.toNat ∧
    (s.set_params lam ord newk).warp_gain =
      specAccum (s.set_params lam ord newk).lambda_
        (s.set_params lam ord newk).k_ (s.set_params lam ord newk).order_.toNat := by
  have hs2 : (s.set_params lam ord newk).s2_ =
      1 / specAccum (s.set_params lam ord newk).lambda_
            (s.set_params lam ord newk).k_ (s.set_params lam ord newk).order_.toNat := by
    rw [set_params_s2, set_params_lambda, set_params_order, specAccum,
      precompGo_eq_specAccumGo]
  refine ⟨div_div 1 s.s1_ s.s2_, ?_, ?_⟩
  · rw [set_params_s1, one_mul]; exact hs2
  · rw [Waplns.warp_gain, set_params_s1, hs2, one_div_one, one_div_one_div]

/-- After `set_params`, every delay entry between the previous stored
order and the new effective order reads zero (the zeroing loop of
`waplns::set_params`). -/
theorem set_params_t_eq_zero (s : Waplns) (lam : ℚ) (ord : Int) (newk : Int → ℚ)
    (i : Int) (h1 : s.order_ ≤ i) (h2 : i < min ord max_wapl_filt_order) :
    (s.set_params lam ord newk).t_ i = 0 := by
  rw [set_params_t]
  exact zeroRange_eq_zero _ _ _ _ h1 (by omega)

/-- C4: configure with order `N`, feed any samples, shrink to `M < N`,
then grow to `P > M`: immediately after the growing call every stage
index in `[M, P)` carries zero delay history. -/
theorem C4_shrink_grow (s : Waplns) (lam1 lam2 lam3 : ℚ) (N M P : Int)
    (ks1 ks2 ks3 : Int → ℚ) (xs : List ℚ)
    (hMN : M < N) (hMP : M < P) (hP : P ≤ max_wapl_filt_order) :
    ∀ i : Int, M ≤ i → i < P →
      (((feedAll xs (s.set_params lam1 N ks1)).set_params lam2 M ks2).set_params
          lam3 P ks3).t_ i = 0 := by
  intro i hi1 hi2
  rw [max_wapl_filt_order] at hP
  have horder : ((feedAll xs (s.set_params lam1 N ks1)).set_params lam2 M ks2).order_ =
      M := by
    rw [set_params_order, max_wapl_filt_order]
    omega
  refine set_params_t_eq_zero _ _ _ _ i (by omega) ?_
  rw [max_wapl_filt_order]
  omega

/-- C4 witness: the concrete history `set_params(1/2, 2, exK)`,
`x_was(1)`, `set_params(1/2, 1, exK)`, `set_params(1/2, 3, exK)` leaves
the delay entry at the re-grown index `2` equal to zero. -/
theorem C4_shrink_grow_witness :
    ((1:Int) < 2 ∧ (1:Int) < 3 ∧ (3:Int) ≤ max_wapl_filt_order ∧
      (1:Int) ≤ 2 ∧ (2:Int) < 3) ∧
    (((feedAll [1] (exS.set_params (1/2) 2 exK)).set_params (1/2) 1 exK).set_params
        (1/2) 3 exK).t_ 2 = 0 := by
  refine ⟨⟨?_, ?_, ?_, ?_, ?_⟩,
    C4_shrink_grow exS (1/2) (1/2) (1/2) 2 1 3 exK exK exK [1]
      ?_ ?_ ?_ 2 ?_ ?_⟩ <;> first
  | rw [max_wapl_filt_order]; omega
  | omega

/-- After `x_was` the stored order and the stored `u`-value of an
order-`≤ 0` filter are unchanged and zero respectively (the stage loop
runs zero times). -/
theorem x_was_u_of_nonpos_order (s : Waplns) (x : ℚ) (h : s.order_ ≤ 0) :
    (s.x_was x).u = 0 ∧ (s.x_was x).order_ = s.order_ := by
  constructor
  · rw [Waplns.u, x_was_next_u]
    have hn : s.order_.toNat = 0 := by omega
    rw [hn, xwGo]
    simp
  · rfl

/-- Function `feedAll` keeps `u = 0` on a filter of non-positive order. -/
theorem feedAll_u_of_nonpos_order (xs : List ℚ) :
    ∀ s : Waplns, s.order_ ≤ 0 → s.u = 0 → (feedAll xs s).u = 0 := by
  induction xs with
  | nil => intro s _ hu; exact hu
  | cons x xs ih =>
    intro s ho hu
    have hx := x_was_u_of_nonpos_order s x ho
    exact ih (s.x_was x) (by rw [hx.2]; exact ho) hx.1

/-- C5: whenever the filter's order is 0 - after default construction,
or after a `set_params` call whose effective order `min(ord, 32)` is 0 -
`u()` returns 0, and keeps returning 0 after arbitrarily many `x_was`
calls with arbitrary inputs. -/
theorem C5_order_zero_bypass (kg tg : Int → ℚ) :
    (waplns_init kg tg).u = 0 ∧
    (∀ (s : Waplns) (lam : ℚ) (ord : Int) (ks : Int → ℚ),
      min ord max_wapl_filt_order = 0 → (s.set_params lam ord ks).u = 0) ∧
    (∀ s : Waplns, s.order_ = 0 → s.u = 0 →
      ∀ xs : List ℚ, (feedAll xs s).u = 0) := by
  refine ⟨rfl, ?_, ?_⟩
  · intro s lam ord ks h
    rw [Waplns.u, set_params_next_u, h]
    norm_num [fbGo]
  · intro s ho hu xs
    exact feedAll_u_of_nonpos_order xs s (by omega) hu

/-- C5 witness: on the concrete fresh filter `exS`, `u()` is zero, it
is zero again after `set_params(1/2, 0, exK)`, and stays zero after
feeding the samples `[5, -3]`. -/
theorem C5_order_zero_bypass_witness :
    min (0:Int) max_wapl_filt_order = 0 ∧
    (exS.set_params (1/2) 0 exK).u = 0 ∧
    (exS.set_params (1/2) 0 exK).order_ = 0 ∧
    (feedAll [5, -3] (exS.set_params (1/2) 0 exK)).u = 0 := by
  have h0 : min (0:Int) max_wapl_filt_order = 0 := by
    rw [max_wapl_filt_order]; omega
  have hu := (C5_order_zero_bypass exZero exZero).2.1 exS (1/2) 0 exK h0
  have horder : (exS.set_params (1/2) 0 exK).order_ = 0 := by
    rw [set_params_order, h0]
  exact ⟨h0, hu,  horder,
    (C5_order_zero_bypass exZero exZero).2.2 _ horder hu [5, -3]⟩

/-- C7 counterexample: `set_params` with the negative order `-1` stores
`min(-1, 32) = -1`, so `order()` afterwards returns `-1`, not 0 as the
claim asserts. -/
theorem C7_counterexample : (exS.set_params 0 (-1) exK).order ≠ 0 := by
  rw [Waplns.order, set_params_order, max_wapl_filt_order]
  omega

/-- C7 (amended): `set_params` with `order ≤ 0` stores the requested
non-positive value itself (`order()` returns `ord`, not necessarily 0);
no coefficient is stored, no lattice stage is active, and the pending
feedback is zero, so the filter behaves as an order-0 bypass. -/
theorem C7_nonpositive_order (s : Waplns) (lam : ℚ) (ord : Int) (ks : Int → ℚ)
    (h : ord ≤ 0) :
    (s.set_params lam ord ks).order = ord ∧
    (∀ i : Int, (s.set_params lam ord ks).k_ i = s.k_ i) ∧
    (s.set_params lam ord ks).u = 0 := by
  have hmin : min ord max_wapl_filt_order = ord := by
    rw [max_wapl_filt_order]; omega
  refine ⟨by rw [Waplns.order, set_params_order, hmin], ?_, ?_⟩
  · intro i
    rw [set_params_k]
    have hn : (min ord max_wapl_filt_order).toNat = 0 := by
      rw [hmin]; omega
    rw [hn, copyRange]
  · rw [Waplns.u, set_params_next_u]
    have hn : (min ord max_wapl_filt_order).toNat = 0 := by
      rw [hmin]; omega
    rw [hn, fbGo]
    norm_num

/-- C7 witness: the amended statement at the concrete call
`set_params(0, -1, exK)` on the fresh filter `exS`. -/
theorem C7_nonpositive_order_witness :
    (-1:Int) ≤ 0 ∧ (exS.set_params 0 (-1) exK).order = -1 ∧
    (exS.set_params 0 (-1) exK).k_ 0 = exS.k_ 0 ∧
    (exS.set_params 0 (-1) exK).u = 0 := by
  have h := C7_nonpositive_order exS 0 (-1) exK (by omega)
  exact ⟨by omega, h.1, h.2.1 0, h.2.2⟩

theorem reset_state_order (s : Waplns) : s.reset_state.order_ = s.order_ := rfl

/-- Zeroing an index window twice is the same as zeroing it once. -/
theorem zeroRange_idem (t : Int → ℚ) (lo : Int) (n : Nat) :
    zeroRange (zeroRange t lo n) lo n = zeroRange t lo n := by
  funext i
  by_cases h : lo ≤ i ∧ i < lo + n
  · rw [zeroRange_eq_zero _ _ _ _ h.1 h.2, zeroRange_eq_zero _ _ _ _ h.1 h.2]
  · rw [zeroRange_eq_of_out _ _ _ _ (by omega)]

/-- C8: `reset_state()` zeroes the delay memory `t[0..order)` and the
pending feedback (so `u()` returns 0 right afterwards), leaves order,
lambda, every coefficient and both derived scales unchanged, and is
idempotent. -/
theorem C8_reset_state (s : Waplns) :
    (∀ i : Int, 0 ≤ i → i < s.order_ → s.reset_state.t_ i = 0) ∧
    s.reset_state.next_u_ = 0 ∧
    s.reset_state.u = 0 ∧
    s.reset_state.order_ = s.order_ ∧
    s.reset_state.lambda_ = s.lambda_ ∧
    (∀ i : Int, s.reset_state.k_ i = s.k_ i) ∧
    s.reset_state.s1_ = s.s1_ ∧
    s.reset_state.s2_ = s.s2_ ∧
    s.reset_state.reset_state = s.reset_state := by
  refine ⟨?_, rfl, rfl, rfl, rfl, fun _ => rfl, rfl, rfl, ?_⟩
  · intro i h1 h2
    rw [reset_state_t]
    exact zeroRange_eq_zero _ _ _ _ h1 (by omega)
  · have ht : s.reset_state.reset_state.t_ = s.reset_state.t_ := by
      rw [reset_state_t s.reset_state, reset_state_t s, reset_state_order,
        zeroRange_idem]
    exact Waplns.ext rfl rfl rfl rfl rfl ht rfl

/-- C8 witness: on the concrete filter `exS2` (order 2, nonzero delay
memory), `reset_state` zeroes the first delay entry and `u()`. -/
theorem C8_reset_state_witness :
    ((0:Int) ≤ 0 ∧ (0:Int) < exS2.order_) ∧
    exS2.reset_state.t_ 0 = 0 ∧ exS2.reset_state.u = 0 ∧
    exS2.reset_state.reset_state = exS2.reset_state := by
  have ho : (0:Int) < exS2.order_ := by
    norm_num [exS2, exS, waplns_init, Waplns.set_params, Waplns.x_was,
      Waplns.precompute_derived_params, max_wapl_filt_order, min_def]
  exact ⟨⟨le_refl 0, ho⟩, (C8_reset_state exS2).1 0 (le_refl 0) ho,
    (C8_reset_state exS2).2.2.1, (C8_reset_state exS2).2.2.2.2.2.2.2.2⟩

theorem set_params_iter_def (s : Waplns) (lam : ℚ) (ord : Int) (it temp0 : Int → ℚ) :
    s.set_params_iter lam ord it temp0 =
      s.set_params lam (min ord max_wapl_filt_order)
        (copyRange temp0 it 0 (min ord max_wapl_filt_order).toNat) := rfl

/-- C6: requesting an order above `max_wapl_filt_order = 32` silently
clamps: `order()` afterwards is 32 and exactly the first 32 supplied
coefficients are stored (entries of `k_` outside `[0, 32)` are
untouched); the generic-iterator overload behaves the same and reads
only the first 32 elements of the iterator. -/
theorem C6_order_clamp (s : Waplns) (lam : ℚ) (ord : Int) (ks it temp0 : Int → ℚ)
    (h : max_wapl_filt_order < ord) :
    ((s.set_params lam ord ks).order = max_wapl_filt_order ∧
     (∀ i : Int, 0 ≤ i → i < max_wapl_filt_order →
       (s.set_params lam ord ks).k_ i = ks i) ∧
     (∀ i : Int, max_wapl_filt_order ≤ i ∨ i < 0 →
       (s.set_params lam ord ks).k_ i = s.k_ i)) ∧
    ((s.set_params_iter lam ord it temp0).order = max_wapl_filt_order ∧
     (∀ i : Int, 0 ≤ i → i < max_wapl_filt_order →
       (s.set_params_iter lam ord it temp0).k_ i = it i) ∧
     (∀ it2 : Int → ℚ,
       (∀ i : Int, 0 ≤ i → i < max_wapl_filt_order → it i = it2 i) →
       s.set_params_iter lam ord it temp0 = s.set_params_iter lam ord it2 temp0)) := by
  rw [max_wapl_filt_order] at h ⊢
  have hmin : min ord max_wapl_filt_order = 32 := by
    rw [max_wapl_filt_order]; omega
  have hn : (min ord max_wapl_filt_order).toNat = 32 := by rw [hmin]; rfl
  have hmin2 : min (min ord max_wapl_filt_order) max_wapl_filt_order = 32 := by
    rw [hmin, max_wapl_filt_order]; omega
  have hn2 : (min (min ord max_wapl_filt_order) max_wapl_filt_order).toNat = 32 := by
    rw [hmin2]; rfl
  refine ⟨⟨?_, ?_, ?_⟩, ?_, ?_, ?_⟩
  · rw [Waplns.order, set_params_order, hmin]
  · intro i h1 h2
    rw [set_params_k, hn]
    exact copyRange_eq_src _ _ _ _ _ h1 (by omega)
  · intro i hi
    rw [set_params_k, hn]
    exact copyRange_eq_of_out _ _ _ _ _ (by omega)
  · rw [Waplns.order, set_params_iter_def, set_params_order, hmin2]
  · intro i h1 h2
    rw [set_params_iter_def, set_params_k, hn2,
      copyRange_eq_src _ _ _ _ _ h1 (by omega), hn]
    exact copyRange_eq_src _ _ _ _ _ h1 (by omega)
  · intro it2 hagree
    rw [set_params_iter_def, set_params_iter_def]
    congr 1
    rw [hn]
    refine copyRange_congr _ _ _ _ _ ?_
    intro j hj1 hj2
    exact hagree j hj1 (by omega)

/-- C6 witness: requesting order 33 on the fresh filter `exS` yields
`order() = 32`, stores the 32nd supplied coefficient (`exK 31`) at
index 31, and leaves `k_` at index 32 untouched; the iterator overload
agrees at index 31. -/
theorem C6_order_clamp_witness :
    max_wapl_filt_order < (33:Int) ∧
    (exS.set_params (1/2) 33 exK).order = max_wapl_filt_order ∧
    (exS.set_params (1/2) 33 exK).k_ 31 = exK 31 ∧
    (exS.set_params (1/2) 33 exK).k_ 32 = exS.k_ 32 ∧
    (exS.set_params_iter (1/2) 33 exK exZero).k_ 31 = exK 31 := by
  have h33 : max_wapl_filt_order < (33:Int) := by rw [max_wapl_filt_order]; omega
  have h := C6_order_clamp exS (1/2) 33 exK exK exZero h33
  refine ⟨h33, h.1.1, h.1.2.1 31 (by omega) ?_, h.1.2.2 32 (Or.inl ?_),
    h.2.2.1 31 (by omega) ?_⟩ <;> rw [max_wapl_filt_order] <;> omega

theorem intRange_mem (lo : Int) (len : Nat) (i : Int) (h : i ∈ intRange lo len) :
    lo ≤ i ∧ i < lo + len := by
  rw [intRange] at h
  obtain ⟨j, hj, rfl⟩ := List.mem_map.mp h
  rw [List.mem_range] at hj
  rw [Int.ofNat_eq_natCast]
  omega

/-- Every index accessed by a single call lies in `[0, 32)`, provided
the stored order is in `[0, 32]` and the call's requested order (if
any) is non-negative. -/
theorem callAccess_bounded (c : FilterCall) (o : Int) (ho0 : 0 ≤ o) (ho32 : o ≤ 32)
    (hc : 0 ≤ reqOrder c) : ∀ i ∈ callAccess c o, 0 ≤ i ∧ i < 32 := by
  intro i hi
  cases c with
  | setp lam ord newk =>
    rw [reqOrder] at hc
    rw [callAccess, max_wapl_filt_order] at hi
    simp only [List.mem_append] at hi
    rcases hi with ((hi | hi) | hi) | hi <;>
      · have := intRange_mem _ _ _ hi
        omega
  | xw x =>
    rw [callAccess] at hi
    have := intRange_mem _ _ _ hi
    omega
  | rst =>
    rw [callAccess] at hi
    have := intRange_mem _ _ _ hi
    omega

/-- The stored order stays in `[0, 32]` across any call whose requested
order (if any) is non-negative. -/
theorem nextOrder_bounds (c : FilterCall) (o : Int) (ho0 : 0 ≤ o) (ho32 : o ≤ 32)
    (hc : 0 ≤ reqOrder c) : 0 ≤ nextOrder c o ∧ nextOrder c o ≤ 32 := by
  cases c with
  | setp lam ord newk =>
    rw [reqOrder] at hc
    rw [nextOrder, max_wapl_filt_order]
    omega
  | xw x => exact ⟨ho0, ho32⟩
  | rst => exact ⟨ho0, ho32⟩

/-- Generalisation of claim C9 to any starting order in `[0, 32]`. -/
theorem accesses_bounded (cs : List FilterCall) :
    ∀ o : Int, 0 ≤ o → o ≤ 32 → (∀ c ∈ cs, 0 ≤ reqOrder c) →
      ∀ i ∈ accesses cs o, 0 ≤ i ∧ i < 32 := by
  induction cs with
  | nil =>
    intro o _ _ _ i hi
    rw [accesses] at hi
    simp at hi
  | cons c cs ih =>
    intro o ho0 ho32 hcs i hi
    rw [accesses, List.mem_append] at hi
    rcases hi with hi | hi
    · exact callAccess_bounded c o ho0 ho32 (hcs c (by simp)) i hi
    · have hb := nextOrder_bounds c o ho0 ho32 (hcs c (by simp))
      exact ih (nextOrder c o) hb.1 hb.2 (fun c' hc' => hcs c' (by simp [hc'])) i hi

/-- C9: `nextOrder` is exactly how each call updates the stored order,
and under the precondition that every `set_params` call in the history
requests a non-negative order, every `k_` / `t_` index accessed by
`set_params` (including `precompute_derived_params` and the feedback
pass), `x_was` and `reset_state` over the whole history from a freshly
constructed filter lies in `[0, 32)`. -/
theorem C9_array_bounds (kg tg : Int → ℚ) (cs : List FilterCall)
    (h : ∀ c ∈ cs, 0 ≤ reqOrder c) :
    (∀ (c : FilterCall) (s : Waplns), (runCall c s).order_ = nextOrder c s.order_) ∧
    ∀ i ∈ accesses cs (waplns_init kg tg).order_,
      0 ≤ i ∧ i < max_wapl_filt_order := by
  constructor
  · intro c s
    cases c <;> rfl
  · simp only [max_wapl_filt_order]
    exact accesses_bounded cs (waplns_init kg tg).order_ le_rfl (by norm_num [waplns_init]) h

/-- C9 witness: the concrete history `exCalls` satisfies the
non-negative-order precondition, and the concrete accessed index 1 is
in bounds. -/
theorem C9_array_bounds_witness :
    (∀ c ∈ exCalls, 0 ≤ reqOrder c) ∧
    ((0:Int) ≤ 1 ∧ (1:Int) < max_wapl_filt_order) := by
  have hreq : ∀ c ∈ exCalls, 0 ≤ reqOrder c := by
    intro c hc
    rw [exCalls] at hc
    simp only [List.mem_cons, List.not_mem_nil, or_false] at hc
    rcases hc with rfl | rfl | rfl <;> norm_num [reqOrder]
  refine ⟨hreq, (C9_array_bounds exZero exZero exCalls hreq).2 1 ?_⟩
  rw [exCalls]
  norm_num [accesses, callAccess, nextOrder, intRange, waplns_init,
    max_wapl_filt_order, min_def, List.range_succ, reqOrder]

/-- The pending feedback computed at the end of `set_params` is zero
whenever the active delay entries are all zero at that point. -/
theorem set_params_u_of_zero_t (s : Waplns) (lam : ℚ) (ord : Int) (ks : Int → ℚ)
    (h : ∀ i : Int, 0 ≤ i → i < (s.set_params lam ord ks).order_ →
      (s.set_params lam ord ks).t_ i = 0) :
    (s.set_params lam ord ks).u = 0 := by
  rw [Waplns.u, set_params_next_u]
  have hz : fbGo lam (s.set_params lam ord ks).k_ (s.set_params lam ord ks).t_ 0
      (min ord max_wapl_filt_order).toNat (0, 0) = (0, 0) := by
    apply fbGo_zero
    intro j hj1 hj2
    refine h j hj1 ?_
    rw [set_params_order]
    omega
  rw [hz]
  norm_num

/-- C10: after the first `set_params` call on a default-constructed
filter, and in general after any `set_params` call at whose completion
every active delay entry is zero, the feedback pass over all-zero delay
memory leaves `nua = 0` and hence `u()` returns exactly 0. -/
theorem C10_fresh_config_u_zero (kg tg ks : Int → ℚ) (lam : ℚ) (ord : Int)
    (s : Waplns)
    (h : ∀ i : Int, 0 ≤ i → i < (s.set_params lam ord ks).order_ →
      (s.set_params lam ord ks).t_ i = 0) :
    ((waplns_init kg tg).set_params lam ord ks).u = 0 ∧
    (s.set_params lam ord ks).u = 0 := by
  refine ⟨set_params_u_of_zero_t _ _ _ _ ?_, set_params_u_of_zero_t _ _ _ _ h⟩
  intro i hi1 hi2
  rw [set_params_order] at hi2
  exact set_params_t_eq_zero _ _ _ _ i hi1 hi2

/-- C10 witness: the concrete call `set_params(1/2, 1, exK)` on the
fresh filter `exS` leaves all active delay entries zero, and `u()` is 0
both on `exS` and on a default-constructed filter after that call. -/
theorem C10_fresh_config_u_zero_witness :
    (∀ i : Int, 0 ≤ i → i < (exS.set_params (1/2) 1 exK).order_ →
      (exS.set_params (1/2) 1 exK).t_ i = 0) ∧
    ((waplns_init exZero exZero).set_params (1/2) 1 exK).u = 0 ∧
    (exS.set_params (1/2) 1 exK).u = 0 := by
  have hz : ∀ i : Int, 0 ≤ i → i < (exS.set_params (1/2) 1 exK).order_ →
      (exS.set_params (1/2) 1 exK).t_ i = 0 := by
    intro i h1 h2
    refine set_params_t_eq_zero _ _ _ _ i h1 ?_
    rw [set_params_order] at h2
    exact h2
  have h := C10_fresh_config_u_zero exZero exZero exK (1/2) 1 exS hz
  exact ⟨hz, h.1, h.2⟩
